import Mathlib

/-!
Verification development for the interactive-editing surface of a block-based
visual editor: Menu / MenuItem highlight state, pointer and keyboard routing,
MarkerManager SVG insertion order, the default keyboard-shortcut records, and
ToolboxCategory colour resolution.

The definitions below are shallow embeddings of the TypeScript sources
(src/core/menu.ts, the MenuItem module, the MarkerManager module, the two
default-shortcut modules and the ToolboxCategory module).  DOM, renderer and
utility collaborators are modelled abstractly: DOM nodes are natural-number
identifiers, event targets arrive pre-resolved, and external utility functions
are passed in as parameters.
-/

set_option maxHeartbeats 1000000

/-- Observable state of one MenuItem: the `enabled` flag, the in-memory
`highlight` flag, whether `createDom` has produced an element (`hasElement`),
and whether that element currently carries the highlight CSS class
(`domHighlight`). -/
structure MItem where
  enabled : Bool
  highlight : Bool
  hasElement : Bool
  domHighlight : Bool
deriving DecidableEq, Repr

namespace MItem

/-- Embedding of MenuItem.setHighlighted: the in-memory flag is assigned
first; the CSS class is only toggled when the element exists and the item is
enabled (the source returns early on `!element` and then on `!enabled`). -/
def setHighlighted (highlight : Bool) (it : MItem) : MItem :=
  let it1 := { it with highlight := highlight }
  if ! it1.hasElement then it1
  else if ! it1.enabled then it1
  else { it1 with domHighlight := highlight }

/-- Embedding of MenuItem.performAction: no-op when disabled, otherwise the
bound action handler is run.  Returns whether the handler was actually run. -/
def performAction (it : MItem) : Bool :=
  it.enabled

end MItem

/-- State of a Menu: the ordered items (insertion order), the index of the
highlighted item (`none` when no item is highlighted), and the recorded
opening coordinates.  The source stores object references; since a menu's
items are pairwise distinct objects, indices into `items` represent them
faithfully (`indexOf` recovers the index of a present item and -1 for an
absent one). -/
structure MenuState where
  items : List MItem
  highlighted : Option Nat
  openingCoords : Option (Int × Int)
deriving DecidableEq, Repr

/-- Replaces the item at index `k` by `f` of it; out-of-range indices leave
the list unchanged (mirrors mutating a foreign object reference, which does
not affect the menu's own items). -/
def updItem (l : List MItem) (k : Nat) (f : MItem → MItem) : List MItem :=
  match l.get? k with
  | some it => l.set k (f it)
  | none => l

namespace Menu

/-- Embedding of Menu.setHighlighted(item): clears the previous highlight via
the item's own setter, nulls `highlightedItem`, then (when an item is given)
sets its flag and records it as highlighted.  The scroll-into-view and ARIA
updates are external effects with no bearing on the modelled state. -/
def setHighlighted (m : MenuState) (j : Option Nat) : MenuState :=
  let items1 :=
    match m.highlighted with
    | some k => updItem m.items k (MItem.setHighlighted false)
    | none => m.items
  match j with
  | none => { m with items := items1, highlighted := none }
  | some i => { m with items := updItem items1 i (MItem.setHighlighted true), highlighted := some i }

/-- Embedding of the `while (menuItem = this.menuItems[index])` loop of
Menu.highlightHelper for delta = 1: scan upward from `index`, stopping at the
first enabled item or when the index leaves the array (a negative or
past-the-end JS index reads `undefined` and ends the loop).  The structural
`fuel` argument only bounds the number of iterations; every call below passes
`items.length + 1`, which is enough fuel for the loop to run to its genuine
exit (proved in `scanForward_fuel_irrelevant`-style lemmas further down). -/
def scanForward (items : List MItem) : Nat → Int → Option Nat
  | 0, _ => none
  | fuel + 1, index =>
    if index < 0 then none
    else
      match items.get? index.toNat with
      | none => none
      | some it =>
        if it.enabled then some index.toNat
        else scanForward items fuel (index + 1)

/-- Embedding of the same loop for delta = -1: scan downward from `index`,
stopping at the first enabled item or when the index drops below zero (or
starts past the end, where the JS read is `undefined`). -/
def scanBack (items : List MItem) : Nat → Int → Option Nat
  | 0, _ => none
  | fuel + 1, index =>
    if index < 0 then none
    else
      match items.get? index.toNat with
      | none => none
      | some it =>
        if it.enabled then some index.toNat
        else scanBack items fuel (index - 1)

/-- Embedding of Menu.highlightHelper(startIndex, delta) for the two deltas
used by the source (1 and -1), followed by the highlight update when the loop
found an enabled item. -/
def highlightHelper (m : MenuState) (startIndex : Int) (delta : Int) : MenuState :=
  let found :=
    if delta = 1 then scanForward m.items (m.items.length + 1) (startIndex + 1)
    else if delta = -1 then scanBack m.items (m.items.length + 1) (startIndex - 1)
    else none
  match found with
  | some i => setHighlighted m (some i)
  | none => m

/-- Index of the highlighted item as the source computes it:
`menuItems.indexOf(highlightedItem)`, which is -1 when nothing is highlighted
(or when the reference is not in the list). -/
def highlightedIndex (m : MenuState) : Int :=
  match m.highlighted with
  | some i => if i < m.items.length then (i : Int) else -1
  | none => -1

/-- Embedding of Menu.highlightNext. -/
def highlightNext (m : MenuState) : MenuState :=
  highlightHelper m (highlightedIndex m) 1

/-- Embedding of Menu.highlightPrevious. -/
def highlightPrevious (m : MenuState) : MenuState :=
  let index := highlightedIndex m
  let index := if index < 0 then (m.items.length : Int) else index
  highlightHelper m index (-1)

/-- Embedding of Menu.highlightFirst. -/
def highlightFirst (m : MenuState) : MenuState :=
  highlightHelper m (-1) 1

/-- Embedding of Menu.highlightLast. -/
def highlightLast (m : MenuState) : MenuState :=
  highlightHelper m (m.items.length : Int) (-1)

/-- Embedding of Menu.handleMouseOver with the event target already resolved
by getMenuItem to an index of this menu's item list (or `none`). -/
def handleMouseOver (m : MenuState) (t : Option Nat) : MenuState :=
  match t with
  | none => m
  | some i =>
    match m.items.get? i with
    | none => m
    | some it =>
      if it.enabled then
        if m.highlighted = some i then m else setHighlighted m (some i)
      else setHighlighted m none

end Menu

/-- Whether the item at index `k` exists and is enabled. -/
def itemEnabledAt (m : MenuState) (k : Nat) : Bool :=
  match m.items.get? k with
  | some it => it.enabled
  | none => false

/-- The start index highlightPrevious scans down from (exclusive): the
highlighted index, or the length when there is no valid highlight. -/
def Menu.prevStartIndex (m : MenuState) : Int :=
  if Menu.highlightedIndex m < 0 then (m.items.length : Int) else Menu.highlightedIndex m


/-- Modelled from the spec: `Coordinate.distance` (a geometry utility treated
as an external collaborator) is the Euclidean distance between two points;
`distance(a, b) < 1` is equivalent to the squared distance being below one,
which avoids square roots in the embedding.  Coordinates are modelled as
integer pixel positions. -/
def coordDistLtOne (a b : Int × Int) : Bool :=
  (a.1 - b.1) ^ 2 + (a.2 - b.2) ^ 2 < 1

namespace Menu

/-- Embedding of Menu.handleClick.  The event target arrives pre-resolved by
getMenuItem (an index of this menu or `none`); `clientX`/`clientY` are the
event's client coordinates (always numbers in this model, matching the
`typeof clientX === 'number'` guard).  Returns the new state together with
the index of the item on which performAction was invoked (`none` when the
click was suppressed or no item was resolved). -/
def handleClick (m : MenuState) (target : Option Nat) (clientX clientY : Int) :
    MenuState × Option Nat :=
  let saved := m.openingCoords
  let m1 := { m with openingCoords := none }
  match saved with
  | some oc =>
    if coordDistLtOne oc (clientX, clientY) then (m1, none)
    else (m1, target)
  | none => (m1, target)

end Menu

/- Constants from the external KeyCodes utility, with their standard DOM
keyCode values. -/
namespace KeyCodes

def ENTER : Nat := 13
def SPACE : Nat := 32
def PAGE_UP : Nat := 33
def PAGE_DOWN : Nat := 34
def END : Nat := 35
def HOME : Nat := 36
def UP : Nat := 38
def DOWN : Nat := 40

end KeyCodes

/-- A keyboard event as the key handler reads it: the four modifier flags and
the key code. -/
structure KeyEvt where
  shiftKey : Bool
  ctrlKey : Bool
  metaKey : Bool
  altKey : Bool
  keyCode : Nat
deriving DecidableEq, Repr

namespace Menu

/-- Embedding of Menu.handleKeyEvent.  Returns the new state, whether the
event was marked handled (`stopPropagation` and `preventDefault` both run at
the end of the switch), and the index of the item on which performAction was
invoked (only for Enter/Space with a current highlight). -/
def handleKeyEvent (m : MenuState) (e : KeyEvt) : MenuState × Bool × Option Nat :=
  if m.items.length < 1 then (m, false, none)
  else if e.shiftKey then (m, false, none)
  else if e.ctrlKey then (m, false, none)
  else if e.metaKey then (m, false, none)
  else if e.altKey then (m, false, none)
  else if e.keyCode = KeyCodes.ENTER ∨ e.keyCode = KeyCodes.SPACE then
    (m, true, m.highlighted)
  else if e.keyCode = KeyCodes.UP then (highlightPrevious m, true, none)
  else if e.keyCode = KeyCodes.DOWN then (highlightNext m, true, none)
  else if e.keyCode = KeyCodes.PAGE_UP ∨ e.keyCode = KeyCodes.HOME then
    (highlightFirst m, true, none)
  else if e.keyCode = KeyCodes.PAGE_DOWN ∨ e.keyCode = KeyCodes.END then
    (highlightLast m, true, none)
  else (m, false, none)

end Menu

/-- One highlight-affecting Menu operation, with DOM event targets already
resolved to item indices.  `setH` is the public setHighlighted entry point,
`mouseOver` the pointer-over routing, the rest the keyboard navigation
moves. -/
inductive MenuOp where
  | setH (j : Option Nat)
  | next
  | prev
  | first
  | last
  | mouseOver (t : Option Nat)
deriving DecidableEq, Repr

/-- Applies one Menu operation. -/
def menuStep (m : MenuState) : MenuOp → MenuState
  | .setH j => Menu.setHighlighted m j
  | .next => Menu.highlightNext m
  | .prev => Menu.highlightPrevious m
  | .first => Menu.highlightFirst m
  | .last => Menu.highlightLast m
  | .mouseOver t => Menu.handleMouseOver m t

/-- Applies a sequence of Menu operations in order. -/
def menuRun (m : MenuState) : List MenuOp → MenuState
  | [] => m
  | op :: ops => menuRun (menuStep m op) ops

/-- The spec's highlight invariant: an item's highlighted flag is true iff it
is the menu's highlightedItem. -/
def MenuInv (m : MenuState) : Prop :=
  ∀ i (h : i < m.items.length), ((m.items.get ⟨i, h⟩).highlight = true ↔ m.highlighted = some i)

instance (m : MenuState) : Decidable (MenuInv m) := by
  unfold MenuInv; infer_instance

/-- State of a MarkerManager together with the workspace block canvas it
inserts into.  Markers and cursors are identified by opaque natural-number
tokens; DOM/SVG nodes are natural-number identifiers handed out by the
`nextNode` counter (each drawer's createDom produces a fresh node).  `canvas`
is the ordered child list of the workspace's block canvas.  `disposed`
records the marker tokens whose dispose() has run.  The external drawer's
dispose is modelled as removing the drawer's SVG node from the canvas. -/
structure MMState where
  markers : List (String × Nat × Nat)
  cursor : Option Nat
  cursorSvg : Option Nat
  markerSvg : Option Nat
  canvas : List Nat
  nextNode : Nat
  disposed : List Nat
deriving DecidableEq, Repr

/-- Embedding of DOM `canvas.insertBefore(n, r)`: places `n` immediately
before the first occurrence of `r` (appending when `r` is absent, a case the
invariants below rule out). -/
def insertBeforeNode : List Nat → Nat → Nat → List Nat
  | [], n, _ => [n]
  | x :: xs, n, r => if x = r then n :: x :: xs else x :: insertBeforeNode xs n r

namespace MarkerManager

/-- Disposes one registered marker entry and removes it from the map, as the
body of unregisterMarker does once the entry was found: marker.dispose()
(drawer tears down its SVG node) and markers.delete(id). -/
def disposeMarkerEntry (s : MMState) (e : String × Nat × Nat) : MMState :=
  { s with
    markers := s.markers.eraseP (fun x => x.1 == e.1)
    canvas := s.canvas.erase e.2.2
    disposed := s.disposed ++ [e.2.1] }

/-- Embedding of MarkerManager.setMarkerSvg: a null marker just clears
`markerSvg_`; otherwise the node is inserted before the cursor's SVG node if
one is set and appended at the end of the block canvas otherwise.  (The
source leaves `markerSvg_` unassigned on this path; the model keeps that
quirk.)  The block canvas is present in this model. -/
def setMarkerSvg (s : MMState) (marker : Option Nat) : MMState :=
  match marker with
  | none => { s with markerSvg := none }
  | some n =>
    match s.cursorSvg with
    | some c => { s with canvas := insertBeforeNode s.canvas n c }
    | none => { s with canvas := s.canvas ++ [n] }

/-- Embedding of MarkerManager.setCursorSvg: a non-null cursor node is
appended at the end of the block canvas; `cursorSvg_` is assigned in either
case. -/
def setCursorSvg (s : MMState) (cursor : Option Nat) : MMState :=
  match cursor with
  | none => { s with cursorSvg := none }
  | some n => { s with canvas := s.canvas ++ [n], cursorSvg := some n }

/-- Embedding of MarkerManager.registerMarker: an already-registered ID is
unregistered first; a drawer is made and attached, its createDom yields a
fresh node which setMarkerSvg inserts, and the map gains the entry (a
JavaScript Map.set after delete appends in iteration order). -/
def registerMarker (s : MMState) (id : String) (mk : Nat) : MMState :=
  let s1 :=
    match s.markers.find? (fun e => e.1 == id) with
    | some e => disposeMarkerEntry s e
    | none => s
  let d := s1.nextNode
  let s2 := setMarkerSvg { s1 with nextNode := s1.nextNode + 1 } (some d)
  { s2 with markers := s2.markers ++ [(id, mk, d)] }

/-- Embedding of MarkerManager.unregisterMarker: an unknown ID throws an
Error naming the ID; a known ID is disposed and removed from the map. -/
def unregisterMarker (s : MMState) (id : String) : Except String MMState :=
  match s.markers.find? (fun e => e.1 == id) with
  | none =>
    .error ("Marker with ID " ++ id ++ " does not exist. Can only unregister markers that exist.")
  | some e => .ok (disposeMarkerEntry s e)

/-- Embedding of MarkerManager.getMarker: the registered marker for the ID,
or null. -/
def getMarker (s : MMState) (id : String) : Option Nat :=
  (s.markers.find? (fun e => e.1 == id)).map (fun e => e.2.1)

/-- Embedding of MarkerManager.setCursor: the previous cursor's drawer (when
present) is disposed — tearing down its SVG node — then the new cursor gets a
drawer whose fresh createDom node is appended by setCursorSvg. -/
def setCursor (s : MMState) (ck : Nat) : MMState :=
  let s1 :=
    match s.cursor, s.cursorSvg with
    | some _, some oldc => { s with canvas := s.canvas.erase oldc }
    | _, _ => s
  let d := s1.nextNode
  let s2 := { s1 with cursor := some ck, nextNode := s1.nextNode + 1 }
  setCursorSvg s2 (some d)

end MarkerManager

/-- One MarkerManager operation of the kind claim sequences range over. -/
inductive MMOp where
  | register (id : String) (mk : Nat)
  | setCursor (ck : Nat)
deriving DecidableEq, Repr

/-- Applies one MarkerManager operation. -/
def mmStep (s : MMState) : MMOp → MMState
  | .register id mk => MarkerManager.registerMarker s id mk
  | .setCursor ck => MarkerManager.setCursor s ck

/-- Applies a sequence of MarkerManager operations in order. -/
def mmRun (s : MMState) : List MMOp → MMState
  | [] => s
  | op :: ops => mmRun (mmStep s op) ops

/-- Well-formedness of a MarkerManager state: every node the state refers to
was handed out by the counter, the cursor's SVG node — when set — is the last
canvas child and occurs nowhere else, and no registered marker's SVG node is
the cursor's node. -/
structure MMWF (s : MMState) : Prop where
  canvas_lt : ∀ n ∈ s.canvas, n < s.nextNode
  cursor_lt : ∀ c, s.cursorSvg = some c → c < s.nextNode
  marker_lt : ∀ e ∈ s.markers, e.2.2 < s.nextNode
  cursor_last : ∀ c, s.cursorSvg = some c → ∃ l, s.canvas = l ++ [c] ∧ c ∉ l
  marker_ne_cursor : ∀ e ∈ s.markers, ∀ c, s.cursorSvg = some c → e.2.2 ≠ c

/- Further constants from the external KeyCodes utility used by the default
shortcuts, again with their standard DOM keyCode values. -/
namespace KeyCodes

def BACKSPACE : Nat := 8
def SHIFT : Nat := 16
def CTRL : Nat := 17
def ALT : Nat := 18
def ESC : Nat := 27
def DELETE : Nat := 46
def C : Nat := 67
def V : Nat := 86
def X : Nat := 88
def Y : Nat := 89
def Z : Nat := 90
def META : Nat := 91

end KeyCodes

/-- The selection-state facts the shortcut preconditions and callbacks read
from the selected entity. -/
structure Selected where
  token : Nat
  deletable : Bool
  movable : Bool
  isBlockSvg : Bool
  inFlyout : Bool
deriving DecidableEq, Repr

/-- The workspace-and-globals snapshot a shortcut precondition or callback
runs against: read-only flag, whether a drag gesture is in progress, the
current selection, and whether clipboard.paste() yields something truthy. -/
structure WS where
  readOnly : Bool
  gestureInProgress : Bool
  selected : Option Selected
  pasteHadResult : Bool
deriving DecidableEq, Repr

/-- The external side effects a shortcut callback can perform, in order.
copySelection carries the argument passed to clipboard.copy (null when no
selection). -/
inductive FX where
  | preventDefault
  | hideChaff
  | copySelection (tok : Option Nat)
  | checkAndDelete (tok : Nat)
  | undo (redo : Bool)
  | pasteFX
deriving DecidableEq, Repr

/-- A registered keyboard-shortcut record over an abstract serialized-chord
type σ: key chords (raw key codes or registry-serialized chords), unique
name, precondition, and callback.  The callback result is the effect trace
plus the returned boolean; `none` as the boolean models the TypeError thrown
by dereferencing a null selection. -/
structure Shortcut (σ : Type) where
  keyCodes : List (Nat ⊕ σ)
  name : String
  preconditionFn : WS → Bool
  callback : WS → List FX × Option Bool

/-- Truthiness of the selection option, as `selected != null` reads it. -/
def selNonNull (s : Option Selected) : Bool :=
  s.isSome

/- Embedding of the original default-shortcut module (src/unnamed/part_000).
The registry's createSerializedKey is an abstract chord constructor `mk`. -/
namespace ShortcutsV0

/-- Embedding of part_000 registerEscape's shortcut record. -/
def escapeShortcut (σ : Type) (mk : Nat → List Nat → σ) : Shortcut σ :=
  { keyCodes := [.inl KeyCodes.ESC]
    name := "escape"
    preconditionFn := fun ws => !ws.readOnly
    callback := fun _ => ([.hideChaff], some true) }

/-- Embedding of part_000 registerDelete's shortcut record: preventDefault is
the callback's first statement, before the gesture check and deletion. -/
def deleteShortcut (σ : Type) (mk : Nat → List Nat → σ) : Shortcut σ :=
  { keyCodes := [.inl KeyCodes.DELETE, .inl KeyCodes.BACKSPACE]
    name := "delete"
    preconditionFn := fun ws =>
      !ws.readOnly && selNonNull ws.selected
        && (match ws.selected with
            | some s => s.deletable
            | none => false)
    callback := fun ws =>
      if ws.gestureInProgress then ([.preventDefault], some false)
      else
        match ws.selected with
        | some s => ([.preventDefault, .checkAndDelete s.token], some true)
        | none => ([.preventDefault], none) }

/-- Embedding of part_000 registerCopy's shortcut record. -/
def copyShortcut (σ : Type) (mk : Nat → List Nat → σ) : Shortcut σ :=
  { keyCodes :=
      [.inr (mk KeyCodes.C [KeyCodes.CTRL]), .inr (mk KeyCodes.C [KeyCodes.ALT]),
        .inr (mk KeyCodes.C [KeyCodes.META])]
    name := "copy"
    preconditionFn := fun ws =>
      !ws.readOnly && !ws.gestureInProgress && selNonNull ws.selected
        && (match ws.selected with
            | some s => s.deletable && s.movable
            | none => false)
    callback := fun ws =>
      ([.preventDefault, .hideChaff, .copySelection ((ws.selected).map (fun s => s.token))],
        some true) }

/-- Embedding of part_000 registerCut's shortcut record. -/
def cutShortcut (σ : Type) (mk : Nat → List Nat → σ) : Shortcut σ :=
  { keyCodes :=
      [.inr (mk KeyCodes.X [KeyCodes.CTRL]), .inr (mk KeyCodes.X [KeyCodes.ALT]),
        .inr (mk KeyCodes.X [KeyCodes.META])]
    name := "cut"
    preconditionFn := fun ws =>
      !ws.readOnly && !ws.gestureInProgress && selNonNull ws.selected
        && (match ws.selected with
            | some s => s.isBlockSvg && s.deletable && s.movable && !s.inFlyout
            | none => false)
    callback := fun ws =>
      match ws.selected with
      | none => ([], some false)
      | some s => ([.copySelection (some s.token), .checkAndDelete s.token], some true) }

/-- Embedding of part_000 registerPaste's shortcut record. -/
def pasteShortcut (σ : Type) (mk : Nat → List Nat → σ) : Shortcut σ :=
  { keyCodes :=
      [.inr (mk KeyCodes.V [KeyCodes.CTRL]), .inr (mk KeyCodes.V [KeyCodes.ALT]),
        .inr (mk KeyCodes.V [KeyCodes.META])]
    name := "paste"
    preconditionFn := fun ws => !ws.readOnly && !ws.gestureInProgress
    callback := fun ws => ([.pasteFX], some ws.pasteHadResult) }

/-- Embedding of part_000 registerUndo's shortcut record. -/
def undoShortcut (σ : Type) (mk : Nat → List Nat → σ) : Shortcut σ :=
  { keyCodes :=
      [.inr (mk KeyCodes.Z [KeyCodes.CTRL]), .inr (mk KeyCodes.Z [KeyCodes.ALT]),
        .inr (mk KeyCodes.Z [KeyCodes.META])]
    name := "undo"
    preconditionFn := fun ws => !ws.readOnly && !ws.gestureInProgress
    callback := fun _ => ([.hideChaff, .undo false], some true) }

/-- Embedding of part_000 registerRedo's shortcut record, with the extra
Ctrl+Y chord. -/
def redoShortcut (σ : Type) (mk : Nat → List Nat → σ) : Shortcut σ :=
  { keyCodes :=
      [.inr (mk KeyCodes.Z [KeyCodes.SHIFT, KeyCodes.CTRL]),
        .inr (mk KeyCodes.Z [KeyCodes.SHIFT, KeyCodes.ALT]),
        .inr (mk KeyCodes.Z [KeyCodes.SHIFT, KeyCodes.META]),
        .inr (mk KeyCodes.Y [KeyCodes.CTRL])]
    name := "redo"
    preconditionFn := fun ws => !ws.gestureInProgress && !ws.readOnly
    callback := fun _ => ([.hideChaff, .undo true], some true) }

/-- Embedding of part_000 registerDefaultShortcuts: the records registered,
in registration order. -/
def defaultShortcuts (σ : Type) (mk : Nat → List Nat → σ) : List (Shortcut σ) :=
  [escapeShortcut σ mk, deleteShortcut σ mk, copyShortcut σ mk, cutShortcut σ mk,
    pasteShortcut σ mk, undoShortcut σ mk, redoShortcut σ mk]

end ShortcutsV0

/- Embedding of the refactored default-shortcut module (src/unnamed/part_001),
which builds its chords through the Key / Variants helpers. -/
namespace ShortcutsV1

/-- Embedding of the KeyProps interface: a base key and its modifiers. -/
structure KeyProps where
  modifiers : List Nat
  base : Nat

/-- Embedding of the Key helper: serialize one chord through the registry. -/
def Key (σ : Type) (mk : Nat → List Nat → σ) (props : KeyProps) : σ :=
  mk props.base props.modifiers

/-- Embedding of the Variants helper: the ctrl, alt and meta variants of a
base key with optional extra modifiers.  (The TypeScript default argument
`modifiers = []` is passed explicitly at the Lean call sites.) -/
def Variants (σ : Type) (mk : Nat → List Nat → σ) (base : Nat) (modifiers : List Nat) : List σ :=
  [Key σ mk ⟨modifiers ++ [KeyCodes.CTRL], base⟩,
    Key σ mk ⟨modifiers ++ [KeyCodes.ALT], base⟩,
    Key σ mk ⟨modifiers ++ [KeyCodes.META], base⟩]

/-- Embedding of part_001 registerEscape's shortcut record. -/
def escapeShortcut (σ : Type) (mk : Nat → List Nat → σ) : Shortcut σ :=
  { keyCodes := [.inl KeyCodes.ESC]
    name := "escape"
    preconditionFn := fun ws => !ws.readOnly
    callback := fun _ => ([.hideChaff], some true) }

/-- Embedding of part_001 registerDelete's shortcut record. -/
def deleteShortcut (σ : Type) (mk : Nat → List Nat → σ) : Shortcut σ :=
  { keyCodes := [.inl KeyCodes.DELETE, .inl KeyCodes.BACKSPACE]
    name := "delete"
    preconditionFn := fun ws =>
      !ws.readOnly && selNonNull ws.selected
        && (match ws.selected with
            | some s => s.deletable
            | none => false)
    callback := fun ws =>
      if ws.gestureInProgress then ([.preventDefault], some false)
      else
        match ws.selected with
        | some s => ([.preventDefault, .checkAndDelete s.token], some true)
        | none => ([.preventDefault], none) }

/-- Embedding of part_001 registerCopy's shortcut record. -/
def copyShortcut (σ : Type) (mk : Nat → List Nat → σ) : Shortcut σ :=
  { keyCodes := (Variants σ mk KeyCodes.C []).map .inr
    name := "copy"
    preconditionFn := fun ws =>
      !ws.readOnly && !ws.gestureInProgress && selNonNull ws.selected
        && (match ws.selected with
            | some s => s.deletable && s.movable
            | none => false)
    callback := fun ws =>
      ([.preventDefault, .hideChaff, .copySelection ((ws.selected).map (fun s => s.token))],
        some true) }

/-- Embedding of part_001 registerCut's shortcut record. -/
def cutShortcut (σ : Type) (mk : Nat → List Nat → σ) : Shortcut σ :=
  { keyCodes := (Variants σ mk KeyCodes.X []).map .inr
    name := "cut"
    preconditionFn := fun ws =>
      !ws.readOnly && !ws.gestureInProgress && selNonNull ws.selected
        && (match ws.selected with
            | some s => s.isBlockSvg && s.deletable && s.movable && !s.inFlyout
            | none => false)
    callback := fun ws =>
      match ws.selected with
      | none => ([], some false)
      | some s => ([.copySelection (some s.token), .checkAndDelete s.token], some true) }

/-- Embedding of part_001 registerPaste's shortcut record. -/
def pasteShortcut (σ : Type) (mk : Nat → List Nat → σ) : Shortcut σ :=
  { keyCodes := (Variants σ mk KeyCodes.V []).map .inr
    name := "paste"
    preconditionFn := fun ws => !ws.readOnly && !ws.gestureInProgress
    callback := fun ws => ([.pasteFX], some ws.pasteHadResult) }

/-- Embedding of part_001 registerUndo's shortcut record. -/
def undoShortcut (σ : Type) (mk : Nat → List Nat → σ) : Shortcut σ :=
  { keyCodes := (Variants σ mk KeyCodes.Z []).map .inr
    name := "undo"
    preconditionFn := fun ws => !ws.readOnly && !ws.gestureInProgress
    callback := fun _ => ([.hideChaff, .undo false], some true) }

/-- Embedding of part_001 registerRedo's shortcut record: the shift variants
destructured from Variants plus the Ctrl+Y chord built with Key. -/
def redoShortcut (σ : Type) (mk : Nat → List Nat → σ) : Shortcut σ :=
  let vs := Variants σ mk KeyCodes.Z [KeyCodes.SHIFT]
  let ctrlY := Key σ mk ⟨[KeyCodes.CTRL], KeyCodes.Y⟩
  { keyCodes := vs.map .inr ++ [.inr ctrlY]
    name := "redo"
    preconditionFn := fun ws => !ws.gestureInProgress && !ws.readOnly
    callback := fun _ => ([.hideChaff, .undo true], some true) }

/-- Embedding of part_001 registerDefaultShortcuts: the records registered,
in registration order. -/
def defaultShortcuts (σ : Type) (mk : Nat → List Nat → σ) : List (Shortcut σ) :=
  [escapeShortcut σ mk, deleteShortcut σ mk, copyShortcut σ mk, cutShortcut σ mk,
    pasteShortcut σ mk, undoShortcut σ mk, redoShortcut σ mk]

end ShortcutsV1

/-- The external utilities ToolboxCategory colour resolution consumes, passed
in abstractly: message-reference replacement (null when the reference decodes
to null), the `!isNaN(Number(color))` numeric test, hue-to-hex conversion,
and colourUtils.parse (null on failure). -/
structure ColourUtilsEnv where
  replaceMessageReferences : String → Option String
  isNumeric : String → Bool
  hueToHex : String → String
  parseHex : String → Option String

/-- A toolbox category definition's colour-related fields, after the
`categorystyle ?? categoryStyle` key merge. -/
structure CategoryDef where
  colour : Option String
  categorystyle : Option String
deriving DecidableEq, Repr

/-- The console.warn messages the colour-resolution path can emit, in
structured form carrying exactly the data the source interpolates. -/
inductive ColourWarning where
  | bothColourAndStyle (categoryName : String)
  | styleMissingColour (styleName : String)
  | unrecognizedColour (categoryName : String) (colorText : String)
deriving DecidableEq, Repr

/-- JavaScript truthiness of an optional string: null and the empty string
are falsy. -/
def jsTruthy : Option String → Bool
  | none => false
  | some s => !(s == "")

namespace ToolboxCategory

/-- Embedding of ToolboxCategory.parseColour_: decode message references,
return empty on null/empty, convert numeric hues, parse hex strings, and on
an unrecognized value warn and fall back to the empty string.  The result is
the colour string paired with the warnings logged. -/
def parseColour_ (env : ColourUtilsEnv) (name_ : String) (value : String) :
    String × List ColourWarning :=
  match env.replaceMessageReferences value with
  | none => ("", [])
  | some color =>
    if color == "" then ("", [])
    else if env.isNumeric color then (env.hueToHex color, [])
    else
      match env.parseHex color with
      | some hex =>
        if hex == "" then ("", [.unrecognizedColour name_ color]) else (hex, [])
      | none => ("", [.unrecognizedColour name_ color])

/-- Embedding of ToolboxCategory.getColourfromStyle_: empty style names and a
missing theme fall back silently; a style without a truthy colour value warns
and falls back; otherwise the style's colour is parsed.  `categoryStyles` is
the theme's style table (`none` when the workspace has no theme). -/
def getColourfromStyle_ (env : ColourUtilsEnv) (categoryStyles : Option (String → Option String))
    (name_ : String) (name : String) : String × List ColourWarning :=
  if name == "" then ("", [])
  else
    match categoryStyles with
    | none => ("", [])
    | some styles =>
      match styles name with
      | some c =>
        if c == "" then ("", [.styleMissingColour name])
        else parseColour_ env name_ c
      | none => ("", [.styleMissingColour name])

/-- Embedding of ToolboxCategory.getColour_: both a colour and a style
supplied together warn and fall back to the empty string; otherwise the style
takes precedence over the colour; with neither, the empty string. -/
def getColour_ (env : ColourUtilsEnv) (categoryStyles : Option (String → Option String))
    (name_ : String) (category : CategoryDef) : String × List ColourWarning :=
  let styleName := category.categorystyle
  let colour := category.colour
  if jsTruthy colour && jsTruthy styleName then
    ("", [.bothColourAndStyle name_])
  else if jsTruthy styleName then
    getColourfromStyle_ env categoryStyles name_ (styleName.getD "")
  else if jsTruthy colour then
    parseColour_ env name_ (colour.getD "")
  else ("", [])

end ToolboxCategory


example : Menu.scanForward [⟨false, false, true, false⟩, ⟨true, false, true, false⟩] 3 0 = some 1 := by
  decide

example : Menu.scanBack [⟨true, false, true, false⟩, ⟨false, false, true, false⟩] 3 1 = some 0 := by
  decide

example :
    (Menu.highlightNext ⟨[⟨false, false, true, false⟩, ⟨true, false, true, false⟩], none, none⟩).highlighted
      = some 1 := by
  decide

section ItemLemmas

/-- The item setter always stores the requested flag value. -/
lemma MItem.setHighlighted_highlight (b : Bool) (it : MItem) :
    (MItem.setHighlighted b it).highlight = b := by
  unfold MItem.setHighlighted
  dsimp only
  split
  · rfl
  · split <;> rfl

/-- The item setter never touches the enabled flag. -/
lemma MItem.setHighlighted_enabled (b : Bool) (it : MItem) :
    (MItem.setHighlighted b it).enabled = it.enabled := by
  unfold MItem.setHighlighted
  dsimp only
  split
  · rfl
  · split <;> rfl

end ItemLemmas

/-- C6 counterexample: on a disabled item whose DOM exists, setHighlighted
does change observable state — the in-memory highlighted flag flips (the
source assigns the flag before the disabled early-return, and the flag feeds
a later createDom), so the call is not a no-op. -/
theorem c6_counterexample_disabled_setHighlighted_changes_flag :
    (MItem.setHighlighted true ⟨false, false, true, false⟩).highlight = true ∧
      (⟨false, false, true, false⟩ : MItem).highlight = false := by
  constructor <;> rfl

/-- C6 (amended): for a disabled MenuItem, setHighlighted(b) leaves the DOM
classes untouched but still assigns the in-memory highlighted flag to b; for
an enabled item with a DOM element it additionally toggles the highlight CSS
class live. -/
theorem c6_menuitem_setHighlighted_disabled_frame (it : MItem) (b : Bool) :
    (it.enabled = false → MItem.setHighlighted b it = { it with highlight := b }) ∧
      (it.enabled = true → it.hasElement = true →
        MItem.setHighlighted b it = { it with highlight := b, domHighlight := b }) := by
  constructor
  · intro hdis
    unfold MItem.setHighlighted
    cases hEl : it.hasElement <;> simp [hEl, hdis]
  · intro hen hEl
    unfold MItem.setHighlighted
    simp [hEl, hen]

/-- C6 witness: the amended statement applied to the concrete disabled item
and to a concrete enabled item. -/
theorem c6_witness :
    MItem.setHighlighted true ⟨false, false, true, false⟩ = ⟨false, true, true, false⟩ ∧
      MItem.setHighlighted true ⟨true, false, true, false⟩ = ⟨true, true, true, true⟩ := by
  constructor
  · exact (c6_menuitem_setHighlighted_disabled_frame ⟨false, false, true, false⟩ true).1 rfl
  · exact (c6_menuitem_setHighlighted_disabled_frame ⟨true, false, true, false⟩ true).2 rfl rfl

/-- C3: on every pointer-down, the saved openingCoords are cleared; when they
were recorded and the click is within one pixel of them, no performAction is
invoked; otherwise performAction is invoked on the item resolved from the
event target (or on nothing when no item resolves). -/
theorem c3_menu_handleClick_spec (m : MenuState) (target : Option Nat) (x y : Int) :
    (Menu.handleClick m target x y).1.openingCoords = none ∧
      (∀ oc, m.openingCoords = some oc → coordDistLtOne oc (x, y) = true →
        (Menu.handleClick m target x y).2 = none) ∧
      ((∀ oc, m.openingCoords = some oc → coordDistLtOne oc (x, y) = false) →
        (Menu.handleClick m target x y).2 = target) := by
  unfold Menu.handleClick
  refine ⟨?_, ?_, ?_⟩
  · cases h : m.openingCoords
    · simp [h]
    · simp [h]
      split <;> rfl
  · intro oc hoc hlt
    simp [hoc, hlt]
  · intro hfar
    cases h : m.openingCoords with
    | none => simp [h]
    | some oc => simp [h, hfar oc h]

/-- C3 witness: a click at the recorded opening coordinates is suppressed,
and the coordinates are consumed. -/
theorem c3_witness :
    (Menu.handleClick ⟨[⟨true, false, true, false⟩], none, some (10, 10)⟩ (some 0) 10 10).1.openingCoords
        = none ∧
      (Menu.handleClick ⟨[⟨true, false, true, false⟩], none, some (10, 10)⟩ (some 0) 10 10).2 = none := by
  refine ⟨(c3_menu_handleClick_spec _ (some 0) 10 10).1, ?_⟩
  exact (c3_menu_handleClick_spec ⟨[⟨true, false, true, false⟩], none, some (10, 10)⟩
    (some 0) 10 10).2.1 (10, 10) rfl (by decide)

/-- C7: a key event delivered to an empty menu or with any modifier held
leaves the menu state unchanged, performs no action, and does not mark the
event handled. -/
theorem c7_menu_key_modifier_frame (m : MenuState) (e : KeyEvt)
    (h : m.items.length = 0 ∨ e.shiftKey = true ∨ e.ctrlKey = true ∨ e.metaKey = true
      ∨ e.altKey = true) :
    Menu.handleKeyEvent m e = (m, false, none) := by
  unfold Menu.handleKeyEvent
  rcases h with h | h | h | h | h
  · simp [h]
  all_goals
    rcases Nat.lt_or_ge m.items.length 1 with hn | hn
    · simp [hn]
    · simp [Nat.not_lt_of_ge hn, h]

/-- C7 witness: a ctrl-modified Down-arrow on a one-item menu is ignored. -/
theorem c7_witness :
    Menu.handleKeyEvent ⟨[⟨true, false, true, false⟩], none, none⟩ ⟨false, true, false, false, 40⟩
      = (⟨[⟨true, false, true, false⟩], none, none⟩, false, none) :=
  c7_menu_key_modifier_frame _ _ (Or.inr (Or.inr (Or.inl rfl)))

/-- C8: the Delete/Backspace callback runs preventDefault as its first effect
on every invocation (even when nothing will be deleted), only then checks the
drag gesture — returning false without deleting while one is in progress —
and otherwise deletes the current selection and returns true; the refactored
module's callback behaves identically. -/
theorem c8_delete_callback_preventDefault_first (ws : WS) :
    ((ShortcutsV0.deleteShortcut Unit (fun _ _ => ())).callback ws).1.head?
        = some FX.preventDefault ∧
      (ws.gestureInProgress = true →
        (ShortcutsV0.deleteShortcut Unit (fun _ _ => ())).callback ws
          = ([FX.preventDefault], some false)) ∧
      (∀ s, ws.gestureInProgress = false → ws.selected = some s →
        (ShortcutsV0.deleteShortcut Unit (fun _ _ => ())).callback ws
          = ([FX.preventDefault, FX.checkAndDelete s.token], some true)) ∧
      (ShortcutsV1.deleteShortcut Unit (fun _ _ => ())).callback ws
        = (ShortcutsV0.deleteShortcut Unit (fun _ _ => ())).callback ws := by
  refine ⟨?_, ?_, ?_, rfl⟩
  · dsimp only [ShortcutsV0.deleteShortcut]
    split
    · rfl
    · cases h : ws.selected <;> simp [h]
  · intro hg
    dsimp only [ShortcutsV0.deleteShortcut]
    simp [hg]
  · intro s hg hs
    dsimp only [ShortcutsV0.deleteShortcut]
    simp [hg, hs]

/-- C8 witness: with no gesture and a selection present, the callback runs
preventDefault then checkAndDelete and returns true. -/
theorem c8_witness :
    (ShortcutsV0.deleteShortcut Unit (fun _ _ => ())).callback ⟨false, false, some ⟨7, true, true, true, false⟩, false⟩
      = ([FX.preventDefault, FX.checkAndDelete 7], some true) :=
  (c8_delete_callback_preventDefault_first ⟨false, false, some ⟨7, true, true, true, false⟩, false⟩).2.2.1
    ⟨7, true, true, true, false⟩ rfl rfl

/-- C10: the original and the refactored default-shortcut modules register
record-for-record equivalent shortcuts for the seven names — the same chord
lists built from the same serialized keys, preconditions that agree on every
workspace snapshot, and callbacks with the same effect traces and return
values. -/
theorem c10_shortcut_modules_equivalent :
    ∀ (σ : Type) (mk : Nat → List Nat → σ),
      ShortcutsV0.defaultShortcuts σ mk = ShortcutsV1.defaultShortcuts σ mk ∧
        (ShortcutsV0.defaultShortcuts σ mk).map (fun r => r.name)
          = ["escape", "delete", "copy", "cut", "paste", "undo", "redo"] :=
  fun _ _ => ⟨rfl, rfl⟩

/-- C9: every malformed colour or style reference — a colour and a style
supplied together, a style whose theme entry is missing or has no truthy
colour, or a colour attribute that survives message decoding but is neither
numeric nor parseable — makes getColour_ log exactly one warning and return
the empty-string fallback; the embedding is a total function, so no input
raises an exception. -/
theorem c9_toolbox_colour_fallback (env : ColourUtilsEnv) (styles : String → Option String)
    (name_ : String) (cat : CategoryDef) :
    (jsTruthy cat.colour = true → jsTruthy cat.categorystyle = true →
        ToolboxCategory.getColour_ env (some styles) name_ cat
          = ("", [ColourWarning.bothColourAndStyle name_])) ∧
      (∀ st, jsTruthy cat.colour = false → cat.categorystyle = some st → st ≠ "" →
        (styles st = none ∨ styles st = some "") →
        ToolboxCategory.getColour_ env (some styles) name_ cat
          = ("", [ColourWarning.styleMissingColour st])) ∧
      (∀ cv c, jsTruthy cat.categorystyle = false → cat.colour = some cv → cv ≠ "" →
        env.replaceMessageReferences cv = some c → c ≠ "" → env.isNumeric c = false →
        (env.parseHex c = none ∨ env.parseHex c = some "") →
        ToolboxCategory.getColour_ env (some styles) name_ cat
          = ("", [ColourWarning.unrecognizedColour name_ c])) := by
  refine ⟨?_, ?_, ?_⟩
  · intro hc hs
    unfold ToolboxCategory.getColour_
    simp [hc, hs]
  · intro st hc hst hne hmiss
    unfold ToolboxCategory.getColour_ ToolboxCategory.getColourfromStyle_
    have hts : jsTruthy cat.categorystyle = true := by
      simp [jsTruthy, hst, hne]
    simp only [hc, hts, Bool.false_and, Bool.false_eq_true, if_false, if_true]
    rcases hmiss with hmiss | hmiss <;>
      simp [hst, hmiss, hne]
  · intro cv c hs hcv hcvne hrep hcne hnum hparse
    unfold ToolboxCategory.getColour_ ToolboxCategory.parseColour_
    have htc : jsTruthy cat.colour = true := by
      simp [jsTruthy, hcv, hcvne]
    simp only [htc, hs, Bool.and_false, Bool.false_eq_true, if_false]
    rcases hparse with hparse | hparse <;>
      simp [hcv, hrep, hcne, hnum, hparse]

/-- C9 witness: a category definition naming a style absent from the theme
falls back to the empty string with one styleMissingColour warning. -/
theorem c9_witness :
    ToolboxCategory.getColour_
        ⟨fun s => some s, fun _ => false, fun _ => "#000000", fun _ => none⟩
        (some fun _ => none) "Logic" ⟨none, some "ghost"⟩
      = ("", [ColourWarning.styleMissingColour "ghost"]) := by
  refine (c9_toolbox_colour_fallback
    ⟨fun s => some s, fun _ => false, fun _ => "#000000", fun _ => none⟩
    (fun _ => none) "Logic" ⟨none, some "ghost"⟩).2.1 "ghost" rfl rfl ?_ (Or.inl rfl)
  decide

section MarkerLemmas

/-- With pairwise-distinct keys (JavaScript Map semantics), erasing the entry
for a key leaves no entry for that key behind. -/
lemma find?_eraseP_key_none (l : List (String × Nat × Nat)) (id : String)
    (hnd : (l.map (fun e => e.1)).Nodup) (hfound : (l.find? (fun e => e.1 == id)).isSome = true) :
    (l.eraseP (fun e => e.1 == id)).find? (fun e => e.1 == id) = none := by
  induction l with
  | nil => simp at hfound
  | cons x xs ih =>
    rcases hhead : (x.1 == id) with hfalse | htrue
    · rw [List.eraseP_cons_of_neg (by simp [hhead]), List.find?_cons_of_neg _ (by simp [hhead])]
      apply ih
      · exact (List.nodup_cons.mp hnd).2
      · rw [List.find?_cons_of_neg _ (by simp [hhead])] at hfound
        exact hfound
    · rw [List.eraseP_cons_of_pos (by simp [hhead])]
      apply List.find?_eq_none.mpr
      intro e he
      have hx1 : x.1 = id := by simpa using hhead
      have hx_notin : x.1 ∉ xs.map (fun e => e.1) := (List.nodup_cons.mp hnd).1
      have : e.1 ≠ id := by
        intro heq
        exact hx_notin (hx1 ▸ heq ▸ List.mem_map_of_mem (fun e => e.1) he)
      simpa using this

end MarkerLemmas

/-- C5: unregisterMarker on an ID with no registered marker throws an Error
whose message names that ID; on a registered ID it succeeds, the marker is
disposed, and getMarker subsequently returns null.  (`hkeys` is the
JavaScript Map guarantee that registered IDs are pairwise distinct.) -/
theorem c5_unregisterMarker_spec (s : MMState) (id : String)
    (hkeys : (s.markers.map (fun e => e.1)).Nodup) :
    (MarkerManager.getMarker s id = none →
        MarkerManager.unregisterMarker s id = Except.error
          ("Marker with ID " ++ id ++ " does not exist. Can only unregister markers that exist.")) ∧
      (∀ mk, MarkerManager.getMarker s id = some mk →
        ∃ s2, MarkerManager.unregisterMarker s id = Except.ok s2 ∧
          MarkerManager.getMarker s2 id = none ∧ mk ∈ s2.disposed) := by
  constructor
  · intro hnone
    unfold MarkerManager.getMarker at hnone
    unfold MarkerManager.unregisterMarker
    rcases hf : s.markers.find? (fun e => e.1 == id) with _ | e
    · rw [hf]
    · rw [hf] at hnone
      simp at hnone
  · intro mk hsome
    unfold MarkerManager.getMarker at hsome
    unfold MarkerManager.unregisterMarker
    rcases hf : s.markers.find? (fun e => e.1 == id) with _ | e
    · rw [hf] at hsome
      simp at hsome
    · rw [hf] at hsome
      rw [hf]
      refine ⟨MarkerManager.disposeMarkerEntry s e, rfl, ?_, ?_⟩
      · unfold MarkerManager.getMarker MarkerManager.disposeMarkerEntry
        have he1 : e.1 = id := by
          have := List.find?_some hf
          simpa using this
        rw [he1]
        rw [find?_eraseP_key_none s.markers id hkeys (by rw [hf]; rfl)]
        rfl
      · unfold MarkerManager.disposeMarkerEntry
        have : e.2.1 = mk := by
          simp at hsome
          exact hsome
        simp [this]

/-- C5 witness: on a one-marker manager, an unknown ID throws the NotFound
error and the known ID is disposed and removed. -/
theorem c5_witness :
    (MarkerManager.unregisterMarker ⟨[("m1", 5, 0)], none, none, none, [0], 1, []⟩ "m2"
        = Except.error
          ("Marker with ID " ++ "m2" ++ " does not exist. Can only unregister markers that exist.")) ∧
      ∃ s2, MarkerManager.unregisterMarker ⟨[("m1", 5, 0)], none, none, none, [0], 1, []⟩ "m1"
          = Except.ok s2 ∧ MarkerManager.getMarker s2 "m1" = none ∧ 5 ∈ s2.disposed := by
  constructor
  · exact (c5_unregisterMarker_spec ⟨[("m1", 5, 0)], none, none, none, [0], 1, []⟩ "m2"
      (by simp)).1 (by decide)
  · exact (c5_unregisterMarker_spec ⟨[("m1", 5, 0)], none, none, none, [0], 1, []⟩ "m1"
      (by simp)).2 5 (by decide)

section ScanLemmas

lemma itemEnabledAt_iff (m : MenuState) (k : Nat) :
    itemEnabledAt m k = true ↔ ∃ it, m.items.get? k = some it ∧ it.enabled = true := by
  unfold itemEnabledAt
  rcases h : m.items.get? k with _ | it <;> simp [h]

/-- The upward scan only ever returns an enabled index at or after its start,
and every in-range index it skipped was disabled. -/
lemma scanForward_some (items : List MItem) :
    ∀ (fuel : Nat) (index : Int) (j : Nat), Menu.scanForward items fuel index = some j →
      index ≤ (j : Int) ∧ (∃ it, items.get? j = some it ∧ it.enabled = true) ∧
        ∀ k : Nat, index ≤ (k : Int) → k < j → ∀ it2, items.get? k = some it2 →
          it2.enabled = false := by
  intro fuel
  induction fuel with
  | zero =>
    intro index j h
    simp [Menu.scanForward] at h
  | succ fuel ih =>
    intro index j h
    rw [Menu.scanForward] at h
    split at h
    · exact absurd h (by simp)
    next hneg =>
      split at h
      next hget => exact absurd h (by simp)
      next it hget =>
        split at h
        next hen =>
          have hj : index.toNat = j := by simpa using h
          refine ⟨by omega, ⟨it, by rw [← hj]; exact hget, hen⟩, ?_⟩
          intro k hk1 hk2 it2 hit2
          omega
        next hen =>
          obtain ⟨h1, h2, h3⟩ := ih (index + 1) j h
          refine ⟨by omega, h2, ?_⟩
          intro k hk1 hk2 it2 hit2
          by_cases hk3 : index + 1 ≤ (k : Int)
          · exact h3 k hk3 hk2 it2 hit2
          · have hkeq : k = index.toNat := by omega
            rw [hkeq] at hit2
            rw [hget] at hit2
            cases hit2
            simpa using hen

/-- With enough fuel, an upward scan that returns nothing saw only disabled
items from its start to the end of the list. -/
lemma scanForward_none (items : List MItem) :
    ∀ (fuel : Nat) (index : Int), 0 ≤ index → items.length ≤ fuel + index.toNat →
      Menu.scanForward items fuel index = none →
      ∀ k : Nat, index ≤ (k : Int) → ∀ it2, items.get? k = some it2 → it2.enabled = false := by
  intro fuel
  induction fuel with
  | zero =>
    intro index hpos hfuel h k hk it2 hit2
    have := (List.get?_eq_some.mp hit2).1
    omega
  | succ fuel ih =>
    intro index hpos hfuel h k hk it2 hit2
    rw [Menu.scanForward] at h
    split at h
    · omega
    next hneg =>
      split at h
      next hget =>
        have hlen := List.get?_eq_none.mp hget
        have := (List.get?_eq_some.mp hit2).1
        omega
      next it hget =>
        split at h
        next hen => exact absurd h (by simp)
        next hen =>
          by_cases hk3 : index + 1 ≤ (k : Int)
          · exact ih (index + 1) (by omega) (by omega) h k hk3 it2 hit2
          · have hkeq : k = index.toNat := by omega
            rw [hkeq] at hit2
            rw [hget] at hit2
            cases hit2
            simpa using hen

/-- The downward scan only ever returns an enabled index at or before its
start, and every index it skipped was disabled. -/
lemma scanBack_some (items : List MItem) :
    ∀ (fuel : Nat) (index : Int) (j : Nat), Menu.scanBack items fuel index = some j →
      (j : Int) ≤ index ∧ (∃ it, items.get? j = some it ∧ it.enabled = true) ∧
        ∀ k : Nat, j < k → (k : Int) ≤ index → ∀ it2, items.get? k = some it2 →
          it2.enabled = false := by
  intro fuel
  induction fuel with
  | zero =>
    intro index j h
    simp [Menu.scanBack] at h
  | succ fuel ih =>
    intro index j h
    rw [Menu.scanBack] at h
    split at h
    · exact absurd h (by simp)
    next hneg =>
      split at h
      next hget => exact absurd h (by simp)
      next it hget =>
        split at h
        next hen =>
          have hj : index.toNat = j := by simpa using h
          refine ⟨by omega, ⟨it, by rw [← hj]; exact hget, hen⟩, ?_⟩
          intro k hk1 hk2 it2 hit2
          omega
        next hen =>
          obtain ⟨h1, h2, h3⟩ := ih (index - 1) j h
          refine ⟨by omega, h2, ?_⟩
          intro k hk1 hk2 it2 hit2
          by_cases hk3 : (k : Int) ≤ index - 1
          · exact h3 k hk1 hk3 it2 hit2
          · have hkeq : k = index.toNat := by omega
            rw [hkeq] at hit2
            rw [hget] at hit2
            cases hit2
            simpa using hen

/-- With enough fuel and a start inside the list, a downward scan that
returns nothing saw only disabled items from its start to the bottom. -/
lemma scanBack_none (items : List MItem) :
    ∀ (fuel : Nat) (index : Int), index + 2 ≤ (fuel : Int) → index < (items.length : Int) →
      Menu.scanBack items fuel index = none →
      ∀ k : Nat, (k : Int) ≤ index → ∀ it2, items.get? k = some it2 → it2.enabled = false := by
  intro fuel
  induction fuel with
  | zero =>
    intro index hfuel hlt h k hk it2 hit2
    omega
  | succ fuel ih =>
    intro index hfuel hlt h k hk it2 hit2
    rw [Menu.scanBack] at h
    split at h
    · omega
    next hneg =>
      split at h
      next hget =>
        have hlen := List.get?_eq_none.mp hget
        omega
      next it hget =>
        split at h
        next hen => exact absurd h (by simp)
        next hen =>
          by_cases hk3 : (k : Int) ≤ index - 1
          · exact ih (index - 1) (by omega) (by omega) h k hk3 it2 hit2
          · have hkeq : k = index.toNat := by omega
            rw [hkeq] at hit2
            rw [hget] at hit2
            cases hit2
            simpa using hen

end ScanLemmas

section NavLemmas

lemma itemEnabledAt_eq_false_of (m : MenuState) (k : Nat)
    (h : ∀ it2, m.items.get? k = some it2 → it2.enabled = false) : itemEnabledAt m k = false := by
  unfold itemEnabledAt
  rcases hg : m.items.get? k with _ | it2
  · rfl
  · exact h it2 hg

lemma highlightedIndex_ge_neg_one (m : MenuState) : -1 ≤ Menu.highlightedIndex m := by
  unfold Menu.highlightedIndex
  rcases h : m.highlighted with _ | i
  · simp
  · simp only
    split <;> omega

lemma highlightedIndex_lt_length (m : MenuState) :
    Menu.highlightedIndex m < (m.items.length : Int) := by
  unfold Menu.highlightedIndex
  rcases h : m.highlighted with _ | i
  · simp only
    omega
  · simp only
    split <;> omega

lemma prevStartIndex_nonneg (m : MenuState) : 0 ≤ Menu.prevStartIndex m := by
  unfold Menu.prevStartIndex
  have := highlightedIndex_ge_neg_one m
  split <;> omega

lemma prevStartIndex_le_length (m : MenuState) :
    Menu.prevStartIndex m ≤ (m.items.length : Int) := by
  unfold Menu.prevStartIndex
  have := highlightedIndex_lt_length m
  split <;> omega

lemma highlightNext_eq (m : MenuState) :
    Menu.highlightNext m =
      match Menu.scanForward m.items (m.items.length + 1) (Menu.highlightedIndex m + 1) with
      | some i => Menu.setHighlighted m (some i)
      | none => m := rfl

lemma highlightPrevious_eq (m : MenuState) :
    Menu.highlightPrevious m =
      match Menu.scanBack m.items (m.items.length + 1) (Menu.prevStartIndex m - 1) with
      | some i => Menu.setHighlighted m (some i)
      | none => m := by
  unfold Menu.highlightPrevious Menu.prevStartIndex Menu.highlightHelper
  split
  next h => exact absurd h (by decide)
  next =>
    split
    next => rfl
    next h => exact absurd rfl h

lemma setHighlighted_highlighted (m : MenuState) (j : Option Nat) :
    (Menu.setHighlighted m j).highlighted = j := by
  unfold Menu.setHighlighted
  rcases j with _ | i <;> rfl

end NavLemmas

/-- C4: highlightNext moves the highlight to the first enabled item after the
current highlight position (after -1 when there is none), highlightPrevious
to the last enabled item before the current position (before the end when
there is none), each skipping disabled items; when no enabled item remains in
the direction of travel the menu state is unchanged (no wraparound). -/
theorem c4_highlight_navigation_spec (m : MenuState) :
    ((∃ j : Nat, Menu.highlightedIndex m < (j : Int) ∧ itemEnabledAt m j = true) →
      ∃ j : Nat,
        Menu.highlightNext m = Menu.setHighlighted m (some j) ∧
          (Menu.highlightNext m).highlighted = some j ∧
          Menu.highlightedIndex m < (j : Int) ∧ itemEnabledAt m j = true ∧
          ∀ k : Nat, Menu.highlightedIndex m < (k : Int) → k < j → itemEnabledAt m k = false) ∧
      ((∀ j : Nat, Menu.highlightedIndex m < (j : Int) → itemEnabledAt m j = false) →
        Menu.highlightNext m = m) ∧
      ((∃ j : Nat, (j : Int) < Menu.prevStartIndex m ∧ itemEnabledAt m j = true) →
        ∃ j : Nat,
          Menu.highlightPrevious m = Menu.setHighlighted m (some j) ∧
            (Menu.highlightPrevious m).highlighted = some j ∧
            (j : Int) < Menu.prevStartIndex m ∧ itemEnabledAt m j = true ∧
            ∀ k : Nat, (k : Int) < Menu.prevStartIndex m → j < k → itemEnabledAt m k = false) ∧
      ((∀ j : Nat, (j : Int) < Menu.prevStartIndex m → itemEnabledAt m j = false) →
        Menu.highlightPrevious m = m) := by
  have hge := highlightedIndex_ge_neg_one m
  have hlt := highlightedIndex_lt_length m
  have hpge := prevStartIndex_nonneg m
  have hple := prevStartIndex_le_length m
  refine ⟨?_, ?_, ?_, ?_⟩
  · intro hex
    obtain ⟨j0, hj0lt, hj0en⟩ := hex
    rcases hscan : Menu.scanForward m.items (m.items.length + 1) (Menu.highlightedIndex m + 1)
      with _ | j
    · exfalso
      obtain ⟨it, hget, hen⟩ := (itemEnabledAt_iff m j0).mp hj0en
      have := scanForward_none m.items (m.items.length + 1) (Menu.highlightedIndex m + 1)
        (by omega) (by omega) hscan j0 (by omega) it hget
      rw [this] at hen
      exact Bool.false_ne_true hen
    · obtain ⟨h1, h2, h3⟩ := scanForward_some m.items (m.items.length + 1)
        (Menu.highlightedIndex m + 1) j hscan
      refine ⟨j, ?_, ?_, by omega, (itemEnabledAt_iff m j).mpr h2, ?_⟩
      · rw [highlightNext_eq, hscan]
      · rw [highlightNext_eq, hscan]
        exact setHighlighted_highlighted m (some j)
      · intro k hk1 hk2
        exact itemEnabledAt_eq_false_of m k (h3 k (by omega) hk2)
  · intro hall
    rw [highlightNext_eq]
    rcases hscan : Menu.scanForward m.items (m.items.length + 1) (Menu.highlightedIndex m + 1)
      with _ | j
    · rfl
    · exfalso
      obtain ⟨h1, h2, h3⟩ := scanForward_some m.items (m.items.length + 1)
        (Menu.highlightedIndex m + 1) j hscan
      have := hall j (by omega)
      rw [(itemEnabledAt_iff m j).mpr h2] at this
      simp at this
  · intro hex
    obtain ⟨j0, hj0lt, hj0en⟩ := hex
    rcases hscan : Menu.scanBack m.items (m.items.length + 1) (Menu.prevStartIndex m - 1)
      with _ | j
    · exfalso
      obtain ⟨it, hget, hen⟩ := (itemEnabledAt_iff m j0).mp hj0en
      have := scanBack_none m.items (m.items.length + 1) (Menu.prevStartIndex m - 1)
        (by push_cast; omega) (by omega) hscan j0 (by omega) it hget
      rw [this] at hen
      exact Bool.false_ne_true hen
    · obtain ⟨h1, h2, h3⟩ := scanBack_some m.items (m.items.length + 1)
        (Menu.prevStartIndex m - 1) j hscan
      refine ⟨j, ?_, ?_, by omega, (itemEnabledAt_iff m j).mpr h2, ?_⟩
      · rw [highlightPrevious_eq, hscan]
      · rw [highlightPrevious_eq, hscan]
        exact setHighlighted_highlighted m (some j)
      · intro k hk1 hk2
        exact itemEnabledAt_eq_false_of m k (h3 k hk2 (by omega))
  · intro hall
    rw [highlightPrevious_eq]
    rcases hscan : Menu.scanBack m.items (m.items.length + 1) (Menu.prevStartIndex m - 1)
      with _ | j
    · rfl
    · exfalso
      obtain ⟨h1, h2, h3⟩ := scanBack_some m.items (m.items.length + 1)
        (Menu.prevStartIndex m - 1) j hscan
      have := hall j (by omega)
      rw [(itemEnabledAt_iff m j).mpr h2] at this
      simp at this

/-- C4 witness: on a two-item menu whose first item is disabled,
highlightNext from the no-highlight state highlights item 1. -/
theorem c4_witness :
    Menu.highlightNext ⟨[⟨false, false, true, false⟩, ⟨true, false, true, false⟩], none, none⟩
      = Menu.setHighlighted ⟨[⟨false, false, true, false⟩, ⟨true, false, true, false⟩], none, none⟩
          (some 1) := by
  obtain ⟨j, h1, h2, h3, h4, h5⟩ :=
    (c4_highlight_navigation_spec
      ⟨[⟨false, false, true, false⟩, ⟨true, false, true, false⟩], none, none⟩).1
      ⟨1, by decide, by decide⟩
  have hc : (Menu.highlightNext
      ⟨[⟨false, false, true, false⟩, ⟨true, false, true, false⟩], none, none⟩).highlighted
      = some 1 := by decide
  rw [h2] at hc
  rw [Option.some_inj.mp hc] at h1
  exact h1

section InvLemmas

lemma updItem_length (l : List MItem) (k : Nat) (f : MItem → MItem) :
    (updItem l k f).length = l.length := by
  unfold updItem
  rcases h : l.get? k with _ | it
  · rfl
  · simp

lemma updItem_get? (l : List MItem) (k : Nat) (f : MItem → MItem) (i : Nat) :
    (updItem l k f).get? i = if i = k then (l.get? i).map f else l.get? i := by
  unfold updItem
  rcases h : l.get? k with _ | it
  · by_cases hi : i = k
    · subst hi
      rw [if_pos rfl, h]
      rfl
    · rw [if_neg hi]
  · have hk : k < l.length := (List.get?_eq_some.mp h).1
    by_cases hi : i = k
    · subst hi
      rw [if_pos rfl, h]
      simp [List.get?_eq_getElem?, List.getElem?_set_self hk]
    · rw [if_neg hi]
      simp [List.get?_eq_getElem?, List.getElem?_set_ne (fun hh => hi hh.symm)]

lemma menuInv_iff (m : MenuState) :
    MenuInv m ↔
      ∀ i it, m.items.get? i = some it → (it.highlight = true ↔ m.highlighted = some i) := by
  constructor
  · intro h i it hit
    obtain ⟨hlt, hget⟩ := List.get?_eq_some.mp hit
    rw [← hget]
    exact h i hlt
  · intro h i hlt
    exact h i (m.items.get ⟨i, hlt⟩) (List.get?_eq_get hlt)

lemma setHighlighted_items_length (m : MenuState) (j : Option Nat) :
    (Menu.setHighlighted m j).items.length = m.items.length := by
  unfold Menu.setHighlighted
  rcases j with _ | i <;> rcases m.highlighted with _ | k <;>
    simp [updItem_length]

lemma setHighlighted_inv (m : MenuState) (j : Option Nat) (hInv : MenuInv m) :
    MenuInv (Menu.setHighlighted m j) := by
  rw [menuInv_iff] at hInv ⊢
  have hcleared : ∀ i it,
      (match m.highlighted with
        | some k => updItem m.items k (MItem.setHighlighted false)
        | none => m.items).get? i = some it → it.highlight = false := by
    intro i it hit
    rcases hh : m.highlighted with _ | k
    · rw [hh] at hit
      have := hInv i it hit
      rw [hh] at this
      rcases hb : it.highlight with _ | _
      · rfl
      · exact absurd (this.mp hb) (by simp)
    · rw [hh] at hit
      rw [updItem_get?] at hit
      by_cases hi : i = k
      · rw [if_pos hi] at hit
        rcases hg : m.items.get? i with _ | it0
        · rw [hg] at hit
          simp at hit
        · rw [hg] at hit
          simp only [Option.map_some'] at hit
          cases hit
          exact MItem.setHighlighted_highlight false it0
      · rw [if_neg hi] at hit
        have := hInv i it hit
        rw [hh] at this
        rcases hb : it.highlight with _ | _
        · rfl
        · have := this.mp hb
          simp at this
          exact absurd this.symm hi
  rcases j with _ | t
  · intro i it hit
    rw [setHighlighted_highlighted]
    unfold Menu.setHighlighted at hit
    have := hcleared i it hit
    simp [this]
  · intro i it hit
    rw [setHighlighted_highlighted]
    unfold Menu.setHighlighted at hit
    rw [updItem_get?] at hit
    by_cases hi : i = t
    · subst hi
      rw [if_pos rfl] at hit
      rcases hg :
          (match m.highlighted with
            | some k => updItem m.items k (MItem.setHighlighted false)
            | none => m.items).get? i with _ | it1
      · rw [hg] at hit
        simp at hit
      · rw [hg] at hit
        simp only [Option.map_some'] at hit
        cases hit
        simp [MItem.setHighlighted_highlight]
    · rw [if_neg hi] at hit
      have := hcleared i it hit
      simp [this]
      exact fun hh => hi hh.symm

lemma highlightHelper_inv (m : MenuState) (s d : Int) (hInv : MenuInv m) :
    MenuInv (Menu.highlightHelper m s d) := by
  unfold Menu.highlightHelper
  dsimp only
  split
  · exact setHighlighted_inv m _ hInv
  · exact hInv

lemma menuStep_inv (m : MenuState) (op : MenuOp) (hInv : MenuInv m) :
    MenuInv (menuStep m op) := by
  cases op with
  | setH j => exact setHighlighted_inv m j hInv
  | next => exact highlightHelper_inv m _ _ hInv
  | prev => exact highlightHelper_inv m _ _ hInv
  | first => exact highlightHelper_inv m _ _ hInv
  | last => exact highlightHelper_inv m _ _ hInv
  | mouseOver t =>
    unfold menuStep Menu.handleMouseOver
    rcases t with _ | i
    · exact hInv
    · dsimp only
      rcases hg : m.items.get? i with _ | it
      · exact hInv
      · dsimp only
        by_cases hen : it.enabled = true
        · rw [if_pos hen]
          by_cases hhi : m.highlighted = some i
          · rw [if_pos hhi]
            exact hInv
          · rw [if_neg hhi]
            exact setHighlighted_inv m _ hInv
        · rw [if_neg hen]
          exact setHighlighted_inv m _ hInv

lemma menuRun_inv (ops : List MenuOp) : ∀ (m : MenuState), MenuInv m → MenuInv (menuRun m ops) := by
  induction ops with
  | nil => intro m h; exact h
  | cons op ops ih =>
    intro m h
    exact ih (menuStep m op) (menuStep_inv m op h)

end InvLemmas

/-- C1: under every sequence of Menu highlight operations (setHighlighted,
highlightNext/Previous/First/Last, pointer-over routing) the invariant that
an item's highlighted flag is true iff it is the menu's highlightedItem is
preserved, so at most one item is highlighted at any time; and
setHighlighted(A) followed by setHighlighted(B) on a valid index B leaves
exactly item B highlighted, with A's flag false when A differs from B. -/
theorem c1_menu_at_most_one_highlighted (m : MenuState) (ops : List MenuOp) (hInv : MenuInv m) :
    (MenuInv (menuRun m ops) ∧
      ∀ i j it1 it2, (menuRun m ops).items.get? i = some it1 →
        (menuRun m ops).items.get? j = some it2 →
        it1.highlight = true → it2.highlight = true → i = j) ∧
      ∀ a b, b < m.items.length →
        (Menu.setHighlighted (Menu.setHighlighted m (some a)) (some b)).highlighted = some b ∧
          (∃ itb,
            (Menu.setHighlighted (Menu.setHighlighted m (some a)) (some b)).items.get? b
                = some itb ∧
              itb.highlight = true) ∧
          (∀ i it,
            (Menu.setHighlighted (Menu.setHighlighted m (some a)) (some b)).items.get? i
                = some it →
              (it.highlight = true ↔ i = b)) ∧
          ∀ ita,
            (Menu.setHighlighted (Menu.setHighlighted m (some a)) (some b)).items.get? a
                = some ita →
              a ≠ b → ita.highlight = false := by
  have hrun := menuRun_inv ops m hInv
  constructor
  · refine ⟨hrun, ?_⟩
    intro i j it1 it2 h1 h2 hh1 hh2
    have e1 := ((menuInv_iff _).mp hrun i it1 h1).mp hh1
    have e2 := ((menuInv_iff _).mp hrun j it2 h2).mp hh2
    rw [e1] at e2
    exact Option.some_inj.mp e2
  · intro a b hb
    have hinv2 : MenuInv (Menu.setHighlighted (Menu.setHighlighted m (some a)) (some b)) :=
      setHighlighted_inv _ _ (setHighlighted_inv _ _ hInv)
    have hhb : (Menu.setHighlighted (Menu.setHighlighted m (some a)) (some b)).highlighted
        = some b := setHighlighted_highlighted _ _
    have hlen : (Menu.setHighlighted (Menu.setHighlighted m (some a)) (some b)).items.length
        = m.items.length := by
      rw [setHighlighted_items_length, setHighlighted_items_length]
    have hmem : ∀ i it,
        (Menu.setHighlighted (Menu.setHighlighted m (some a)) (some b)).items.get? i = some it →
          (it.highlight = true ↔ i = b) := by
      intro i it hit
      have := (menuInv_iff _).mp hinv2 i it hit
      rw [hhb] at this
      constructor
      · intro hh
        exact (Option.some_inj.mp (this.mp hh)).symm
      · intro hh
        exact this.mpr (by rw [hh])
    refine ⟨hhb, ?_, hmem, ?_⟩
    · have hblt : b < (Menu.setHighlighted (Menu.setHighlighted m (some a)) (some b)).items.length := by
        omega
      refine ⟨_, List.get?_eq_get hblt, ?_⟩
      exact (hmem b _ (List.get?_eq_get hblt)).mpr rfl
    · intro ita hita hab
      have := hmem a ita hita
      rcases hh : ita.highlight with _ | _
      · rfl
      · exact absurd (this.mp hh) hab

/-- C1 witness: on a concrete two-item menu, highlighting item 0 then item 1
through the public setter leaves exactly item 1 highlighted. -/
theorem c1_witness :
    (Menu.setHighlighted
        (Menu.setHighlighted ⟨[⟨true, false, true, false⟩, ⟨true, false, true, false⟩], none, none⟩
          (some 0)) (some 1)).highlighted = some 1 := by
  exact ((c1_menu_at_most_one_highlighted
    ⟨[⟨true, false, true, false⟩, ⟨true, false, true, false⟩], none, none⟩ [] (by decide)).2
    0 1 (by decide)).1

section CursorLemmas

lemma mem_insertBeforeNode (l : List Nat) (n r x : Nat) :
    x ∈ insertBeforeNode l n r → x = n ∨ x ∈ l := by
  induction l with
  | nil =>
    intro h
    simp [insertBeforeNode] at h
    exact Or.inl h
  | cons y ys ih =>
    intro h
    unfold insertBeforeNode at h
    split at h
    · rcases List.mem_cons.mp h with h | h
      · exact Or.inl h
      · exact Or.inr h
    · rcases List.mem_cons.mp h with h | h
      · exact Or.inr (List.mem_cons.mpr (Or.inl h))
      · rcases ih h with h | h
        · exact Or.inl h
        · exact Or.inr (List.mem_cons.mpr (Or.inr h))

lemma insertBeforeNode_append (l : List Nat) (c n : Nat) (hcl : c ∉ l) :
    insertBeforeNode (l ++ [c]) n c = (l ++ [n]) ++ [c] := by
  induction l with
  | nil => simp [insertBeforeNode]
  | cons y ys ih =>
    have hyc : ¬(y = c) := fun hh => hcl (hh ▸ List.mem_cons_self y ys)
    have hcy : c ∉ ys := fun hh => hcl (List.mem_cons.mpr (Or.inr hh))
    simp only [List.cons_append, insertBeforeNode, if_neg hyc]
    rw [show ys.append [c] = ys ++ [c] from rfl, ih hcy]

lemma erase_keeps_last (l : List Nat) (c d : Nat) (hdc : d ≠ c) (hcl : c ∉ l) :
    ∃ l2, (l ++ [c]).erase d = l2 ++ [c] ∧ c ∉ l2 := by
  by_cases hd : d ∈ l
  · refine ⟨l.erase d, List.erase_append_left [c] hd, ?_⟩
    intro hmem
    exact hcl (List.mem_of_mem_erase hmem)
  · refine ⟨l, ?_, hcl⟩
    rw [List.erase_append_right [c] hd]
    rw [List.erase_of_not_mem (by simp [hdc])]

lemma disposeMarkerEntry_fields (s : MMState) (e : String × Nat × Nat) :
    (MarkerManager.disposeMarkerEntry s e).cursorSvg = s.cursorSvg ∧
      (MarkerManager.disposeMarkerEntry s e).cursor = s.cursor ∧
      (MarkerManager.disposeMarkerEntry s e).nextNode = s.nextNode := ⟨rfl, rfl, rfl⟩

lemma disposeMarkerEntry_wf (s : MMState) (e : String × Nat × Nat) (hwf : MMWF s)
    (he : e ∈ s.markers) : MMWF (MarkerManager.disposeMarkerEntry s e) := by
  unfold MarkerManager.disposeMarkerEntry
  constructor
  · intro n hn
    exact hwf.canvas_lt n (List.mem_of_mem_erase hn)
  · intro c hc
    exact hwf.cursor_lt c hc
  · intro e2 he2
    exact hwf.marker_lt e2 (List.mem_of_mem_eraseP he2)
  · intro c hc
    obtain ⟨l, hl, hcl⟩ := hwf.cursor_last c hc
    have hdc : e.2.2 ≠ c := hwf.marker_ne_cursor e he c hc
    rw [hl]
    exact erase_keeps_last l c e.2.2 hdc hcl
  · intro e2 he2 c hc
    exact hwf.marker_ne_cursor e2 (List.mem_of_mem_eraseP he2) c hc

lemma MMWF_intro (mks : List (String × Nat × Nat)) (cur cs msvg : Option Nat)
    (cv : List Nat) (nn : Nat) (dp : List Nat)
    (h1 : ∀ n ∈ cv, n < nn) (h2 : ∀ c, cs = some c → c < nn)
    (h3 : ∀ e ∈ mks, e.2.2 < nn)
    (h4 : ∀ c, cs = some c → ∃ l, cv = l ++ [c] ∧ c ∉ l)
    (h5 : ∀ e ∈ mks, ∀ c, cs = some c → e.2.2 ≠ c) :
    MMWF ⟨mks, cur, cs, msvg, cv, nn, dp⟩ :=
  ⟨h1, h2, h3, h4, h5⟩

lemma registerCore_wf (s1 : MMState) (id : String) (mk : Nat) (hwf1 : MMWF s1) :
    MMWF { (MarkerManager.setMarkerSvg { s1 with nextNode := s1.nextNode + 1 } (some s1.nextNode)) with
      markers :=
        (MarkerManager.setMarkerSvg { s1 with nextNode := s1.nextNode + 1 }
            (some s1.nextNode)).markers ++ [(id, mk, s1.nextNode)] } := by
  rcases hc : s1.cursorSvg with _ | c
  · have hfinal :
        MarkerManager.setMarkerSvg { s1 with nextNode := s1.nextNode + 1, cursorSvg := none }
            (some s1.nextNode)
          = { s1 with
              nextNode := s1.nextNode + 1
              cursorSvg := none
              canvas := s1.canvas ++ [s1.nextNode] } := by
      unfold MarkerManager.setMarkerSvg
      rfl
    rw [hfinal]
    show MMWF ⟨s1.markers ++ [(id, mk, s1.nextNode)], s1.cursor, none, s1.markerSvg,
      s1.canvas ++ [s1.nextNode], s1.nextNode + 1, s1.disposed⟩
    refine MMWF_intro _ _ _ _ _ _ _ ?_ ?_ ?_ ?_ ?_
    · intro n hn
      rcases List.mem_append.mp hn with hn | hn
      · have := hwf1.canvas_lt n hn
        omega
      · simp at hn
        omega
    · intro c2 hc2
      cases hc2
    · intro e2 he2
      rcases List.mem_append.mp he2 with he2 | he2
      · have := hwf1.marker_lt e2 he2
        omega
      · simp at he2
        subst he2
        show s1.nextNode < s1.nextNode + 1
        omega
    · intro c2 hc2
      cases hc2
    · intro e2 he2 c2 hc2
      cases hc2
  · have hclt := hwf1.cursor_lt c hc
    obtain ⟨l, hl, hcl⟩ := hwf1.cursor_last c hc
    have hins : insertBeforeNode s1.canvas s1.nextNode c = (l ++ [s1.nextNode]) ++ [c] := by
      rw [hl]
      exact insertBeforeNode_append l c s1.nextNode hcl
    have hfinal :
        MarkerManager.setMarkerSvg { s1 with nextNode := s1.nextNode + 1, cursorSvg := some c }
            (some s1.nextNode)
          = { s1 with
              nextNode := s1.nextNode + 1
              cursorSvg := some c
              canvas := insertBeforeNode s1.canvas s1.nextNode c } := by
      unfold MarkerManager.setMarkerSvg
      rfl
    rw [hfinal]
    show MMWF ⟨s1.markers ++ [(id, mk, s1.nextNode)], s1.cursor, some c, s1.markerSvg,
      insertBeforeNode s1.canvas s1.nextNode c, s1.nextNode + 1, s1.disposed⟩
    refine MMWF_intro _ _ _ _ _ _ _ ?_ ?_ ?_ ?_ ?_
    · intro n hn
      rcases mem_insertBeforeNode _ _ _ _ hn with hn | hn
      · omega
      · have := hwf1.canvas_lt n hn
        omega
    · intro c2 hc2
      cases hc2
      omega
    · intro e2 he2
      rcases List.mem_append.mp he2 with he2 | he2
      · have := hwf1.marker_lt e2 he2
        omega
      · simp at he2
        subst he2
        show s1.nextNode < s1.nextNode + 1
        omega
    · intro c2 hc2
      cases hc2
      refine ⟨l ++ [s1.nextNode], hins, ?_⟩
      intro hmem
      rcases List.mem_append.mp hmem with hmem | hmem
      · exact hcl hmem
      · simp at hmem
        omega
    · intro e2 he2 c2 hc2
      cases hc2
      rcases List.mem_append.mp he2 with he2 | he2
      · exact hwf1.marker_ne_cursor e2 he2 c hc
      · simp at he2
        subst he2
        show s1.nextNode ≠ c
        omega

lemma registerMarker_wf (s : MMState) (id : String) (mk : Nat) (hwf : MMWF s) :
    MMWF (MarkerManager.registerMarker s id mk) := by
  unfold MarkerManager.registerMarker
  rcases hf : s.markers.find? (fun e => e.1 == id) with _ | e
  · rw [hf]
    exact registerCore_wf s id mk hwf
  · rw [hf]
    exact registerCore_wf (MarkerManager.disposeMarkerEntry s e) id mk
      (disposeMarkerEntry_wf s e hwf (List.mem_of_find?_eq_some hf))

lemma setCursor_wf (s : MMState) (ck : Nat) (hwf : MMWF s) :
    MMWF (MarkerManager.setCursor s ck) := by
  unfold MarkerManager.setCursor MarkerManager.setCursorSvg
  have h1 : ∀ s1 : MMState, s1.nextNode = s.nextNode → s1.markers = s.markers →
      (∀ n ∈ s1.canvas, n < s.nextNode) →
      MMWF { s1 with
        cursor := some ck, nextNode := s1.nextNode + 1,
        canvas := s1.canvas ++ [s1.nextNode], cursorSvg := some s1.nextNode } := by
    intro s1 hnext hmk hcan
    show MMWF ⟨s1.markers, some ck, some s1.nextNode, s1.markerSvg,
      s1.canvas ++ [s1.nextNode], s1.nextNode + 1, s1.disposed⟩
    refine MMWF_intro _ _ _ _ _ _ _ ?_ ?_ ?_ ?_ ?_
    · intro n hn
      rcases List.mem_append.mp hn with hn | hn
      · have := hcan n hn
        omega
      · simp at hn
        omega
    · intro c2 hc2
      cases hc2
      omega
    · intro e2 he2
      rw [hmk] at he2
      have := hwf.marker_lt e2 he2
      omega
    · intro c2 hc2
      cases hc2
      refine ⟨s1.canvas, rfl, ?_⟩
      intro hmem
      have := hcan _ hmem
      omega
    · intro e2 he2 c2 hc2
      cases hc2
      rw [hmk] at he2
      have := hwf.marker_lt e2 he2
      omega
  rcases hcc : s.cursor with _ | ct <;> rcases hcs : s.cursorSvg with _ | oldc
  · exact h1 s rfl rfl hwf.canvas_lt
  · exact h1 s rfl rfl hwf.canvas_lt
  · exact h1 s rfl rfl hwf.canvas_lt
  · refine h1 { s with canvas := s.canvas.erase oldc } rfl rfl ?_
    intro n hn
    exact hwf.canvas_lt n (List.mem_of_mem_erase hn)

lemma mmStep_wf (s : MMState) (op : MMOp) (hwf : MMWF s) : MMWF (mmStep s op) := by
  cases op with
  | register id mk => exact registerMarker_wf s id mk hwf
  | setCursor ck => exact setCursor_wf s ck hwf

lemma mmRun_wf (ops : List MMOp) : ∀ (s : MMState), MMWF s → MMWF (mmRun s ops) := by
  induction ops with
  | nil => intro s h; exact h
  | cons op ops ih =>
    intro s h
    exact ih (mmStep s op) (mmStep_wf s op h)

end CursorLemmas

/-- C2: registerMarker inserts the new marker node before the cursor node
when a cursor SVG is set and appends it at the end otherwise, setCursor
appends the new cursor node at the end, and consequently — over every
sequence of registerMarker / setCursor operations from a well-formed state —
the cursor's SVG node is always the last child of the block canvas, painting
above every marker node. -/
theorem c2_cursor_topmost (s : MMState) (hwf : MMWF s) :
    (∀ ops : List MMOp, MMWF (mmRun s ops) ∧
      ∀ c, (mmRun s ops).cursorSvg = some c → (mmRun s ops).canvas.getLast? = some c) ∧
      (∀ id mk, s.markers.find? (fun e => e.1 == id) = none → s.cursorSvg = none →
        (MarkerManager.registerMarker s id mk).canvas = s.canvas ++ [s.nextNode]) ∧
      (∀ id mk c l, s.markers.find? (fun e => e.1 == id) = none → s.cursorSvg = some c →
        s.canvas = l ++ [c] → c ∉ l →
        (MarkerManager.registerMarker s id mk).canvas = (l ++ [s.nextNode]) ++ [c]) ∧
      (∀ ck, ∃ n, (MarkerManager.setCursor s ck).cursorSvg = some n ∧
        (MarkerManager.setCursor s ck).canvas.getLast? = some n) := by
  refine ⟨?_, ?_, ?_, ?_⟩
  · intro ops
    have hwf2 := mmRun_wf ops s hwf
    refine ⟨hwf2, ?_⟩
    intro c hc
    obtain ⟨l, hl, _⟩ := hwf2.cursor_last c hc
    rw [hl]
    exact List.getLast?_concat l
  · intro id mk hfind hcur
    unfold MarkerManager.registerMarker MarkerManager.setMarkerSvg
    rw [hfind]
    dsimp only
    rw [hcur]
  · intro id mk c l hfind hcur hcanvas hcl
    unfold MarkerManager.registerMarker MarkerManager.setMarkerSvg
    rw [hfind]
    dsimp only
    rw [hcur]
    dsimp only
    rw [hcanvas]
    exact insertBeforeNode_append l c s.nextNode hcl
  · intro ck
    unfold MarkerManager.setCursor MarkerManager.setCursorSvg
    rcases hcc : s.cursor with _ | ct <;> rcases hcs : s.cursorSvg with _ | oldc
    · exact ⟨s.nextNode, rfl, List.getLast?_concat _⟩
    · exact ⟨s.nextNode, rfl, List.getLast?_concat _⟩
    · exact ⟨s.nextNode, rfl, List.getLast?_concat _⟩
    · exact ⟨s.nextNode, rfl, List.getLast?_concat _⟩

/-- C2 witness: from an empty manager, setCursor then registerMarker leaves
the cursor node (node 0) as the last canvas child. -/
theorem c2_witness :
    (mmRun ⟨[], none, none, none, [], 0, []⟩
        [MMOp.setCursor 5, MMOp.register "m1" 7]).canvas.getLast? = some 0 := by
  refine ((c2_cursor_topmost ⟨[], none, none, none, [], 0, []⟩ ?_).1
    [MMOp.setCursor 5, MMOp.register "m1" 7]).2 0 (by decide)
  exact ⟨by simp, by simp, by simp, by simp, by simp⟩
